import Mathlib

/-!
Verification of the car-market data-insertion pipeline
(`scripts/data_insertion.py`): a shallow embedding of the cleaning,
materialization, batching and transaction-orchestration code, with
theorems settling the specification claims.

Cells of a table are modelled by `Cell`: pandas missing markers
(NaN / pd.NA / None) collapse to `Cell.na`; integer-typed scalars are
`Cell.int`; float-typed scalars are `Cell.num` carrying an exact
rational (the pipeline only compares and range-checks numerics, so no
claim depends on binary floating-point rounding); text is `Cell.str`
and booleans `Cell.bool`.
-/

inductive Cell where
  | na : Cell
  | int (n : Int) : Cell
  | num (q : ℚ) : Cell
  | str (s : String) : Cell
  | bool (b : Bool) : Cell
deriving DecidableEq

/-- `True` exactly on the pandas missing marker. -/
def Cell.isNA : Cell → Bool
  | Cell.na => true
  | _ => false

/-- ASCII lower-casing of one character, as Python `str.lower` does for
the ASCII range used by the boolean vocabulary. -/
def asciiLower (c : Char) : Char :=
  if 65 ≤ c.toNat ∧ c.toNat ≤ 90 then Char.ofNat (c.toNat + 32) else c

/-- Python's whitespace predicate (`str.isspace`): ASCII whitespace,
vertical tab, form feed, and the Unicode space separators Python
strips. -/
def pyIsSpace (c : Char) : Bool :=
  c.isWhitespace || c = '\x0b' || c = '\x0c' || c.toNat = 133 || c.toNat = 160 ||
  c.toNat = 5760 || (8192 ≤ c.toNat && c.toNat ≤ 8202) || c.toNat = 8232 ||
  c.toNat = 8233 || c.toNat = 8239 || c.toNat = 8287 || c.toNat = 12288

/-- Strip leading and trailing whitespace from a character list, as
Python `str.strip` / pandas `str.strip` do. -/
def trimChars (l : List Char) : List Char :=
  ((l.dropWhile pyIsSpace).reverse.dropWhile pyIsSpace).reverse

/-- Python-style `strip` on strings. -/
def strStrip (s : String) : String :=
  String.mk (trimChars s.data)

/-- Python-style `lower` on strings (ASCII range). -/
def strLower (s : String) : String :=
  String.mk (s.data.map asciiLower)

/-- Numeric value of a run of decimal digits. -/
def digitsToNat (l : List Char) : Nat :=
  l.foldl (fun a c => a * 10 + (c.toNat - 48)) 0

/-- The exponent part of a numeric literal: an optional sign followed
by a non-empty digit run. -/
def parseExpPart (l : List Char) : Option Int :=
  let signed : Bool × List Char :=
    match l with
    | '-' :: r => (true, r)
    | '+' :: r => (false, r)
    | r => (false, r)
  if signed.2.isEmpty = false ∧ signed.2.all Char.isDigit then
    some (if signed.1 then -(digitsToNat signed.2 : Int) else (digitsToNat signed.2 : Int))
  else none

/-- Exact value of the parsed literal `ip.fp × 10^ex`, negated when
`neg`; built from integer arithmetic and one `mkRat`. -/
def decimalValue (neg : Bool) (ip fp : List Char) (ex : Int) : ℚ :=
  let mag : Int := (digitsToNat ip : Int) * ((10 : Int) ^ fp.length) + (digitsToNat fp : Int)
  let mag2 : Int := if neg then -mag else mag
  if 0 ≤ ex then mkRat (mag2 * (10 : Int) ^ ex.toNat) ((10 : Nat) ^ fp.length)
  else mkRat mag2 ((10 : Nat) ^ (fp.length + (-ex).toNat))

/-- Models `pd.to_numeric` string parsing of decimal literals:
optional sign, integer digits, optional fractional part and optional
exponent part, after stripping whitespace — the forms Python float
parsing accepts. A plain digit run yields `Cell.int`; a literal with a
decimal point or an exponent yields `Cell.num` (a float in pandas).
Values are exact rationals: the pipeline only compares, range-checks
and integrality-checks them, and every literal a claim exercises is
exactly representable. -/
def parseNumeric (s : String) : Option Cell :=
  let cs := trimChars s.data
  let signed : Bool × List Char :=
    match cs with
    | '-' :: r => (true, r)
    | '+' :: r => (false, r)
    | r => (false, r)
  let neg := signed.1
  let body := signed.2
  let ip := body.takeWhile Char.isDigit
  let rest := body.dropWhile Char.isDigit
  match rest with
  | [] =>
      if ip.isEmpty then none
      else some (Cell.int (if neg then -(digitsToNat ip : Int) else (digitsToNat ip : Int)))
  | '.' :: rest2 =>
      let fp := rest2.takeWhile Char.isDigit
      let rest3 := rest2.dropWhile Char.isDigit
      if ip.isEmpty && fp.isEmpty then none
      else
        match rest3 with
        | [] => some (Cell.num (decimalValue neg ip fp 0))
        | e :: erest =>
            if e = 'e' ∨ e = 'E' then
              match parseExpPart erest with
              | some ex => some (Cell.num (decimalValue neg ip fp ex))
              | none => none
            else none
  | e :: erest =>
      if (e = 'e' ∨ e = 'E') ∧ ip.isEmpty = false then
        match parseExpPart erest with
        | some ex => some (Cell.num (decimalValue neg ip [] ex))
        | none => none
      else none

/-- Models `pd.to_numeric(·, errors="coerce")` on one cell: numerics
pass through, booleans coerce to 0/1, strings are parsed, anything
unparseable becomes the missing marker. -/
def toNumeric (c : Cell) : Cell :=
  match c with
  | Cell.na => Cell.na
  | Cell.int n => Cell.int n
  | Cell.num q => Cell.num q
  | Cell.bool b => Cell.int (if b then 1 else 0)
  | Cell.str s => (parseNumeric s).getD Cell.na

/-- Bounds of the signed 64-bit integers `astype("Int64")` targets. -/
def int64Min : Int := -(2 ^ 63)

def int64Max : Int := 2 ^ 63 - 1

/-- Models `.astype("Int64")` on one numeric-or-missing cell: missing
stays missing, and a numeric value casts only when it is integral and
inside the signed 64-bit range — pandas raises ("cannot safely cast
non-equivalent values" / overflow) on a fractional float and on an
integral value outside int64, both modelled by `Except.error`. -/
def astypeInt64 (c : Cell) : Except Unit Cell :=
  match c with
  | Cell.na => Except.ok Cell.na
  | Cell.int n =>
      if n < int64Min ∨ int64Max < n then Except.error () else Except.ok (Cell.int n)
  | Cell.num q =>
      if q.den = 1 ∧ int64Min ≤ q.num ∧ q.num ≤ int64Max then Except.ok (Cell.int q.num)
      else Except.error ()
  | Cell.bool b => Except.ok (Cell.int (if b then 1 else 0))
  | Cell.str _ => Except.error ()

/-- Models `.astype("string")` on one cell: missing stays missing,
other scalars render to their text form. Rendering of a non-integral
float is approximate (no claim exercises it); integers and booleans
render exactly as pandas does. -/
def astypeString (c : Cell) : Cell :=
  match c with
  | Cell.na => Cell.na
  | Cell.str s => Cell.str s
  | Cell.int n => Cell.str (toString n)
  | Cell.bool b => Cell.str (if b then "True" else "False")
  | Cell.num q =>
      Cell.str (if q.den = 1 then toString q.num ++ ".0" else toString q)

/-- Models `.astype("string").str.strip()` on one cell. -/
def stripStr (c : Cell) : Cell :=
  match astypeString c with
  | Cell.str s => Cell.str (strStrip s)
  | x => x

/-- Models `.astype("string").str.lower().str.strip().map({"true": True,
"false": False, "1": True, "0": False, "yes": True, "no": False})` on
one cell, as used for `sunroof` and `cleared_customs`. -/
def boolMap (c : Cell) : Cell :=
  match astypeString c with
  | Cell.na => Cell.na
  | Cell.str s =>
      let t := strStrip (strLower s)
      if t = "true" ∨ t = "1" ∨ t = "yes" then Cell.bool true
      else if t = "false" ∨ t = "0" ∨ t = "no" then Cell.bool false
      else Cell.na
  | _ => Cell.na

/-- The rational value of a numeric cell, if any. -/
def cellNumVal (c : Cell) : Option ℚ :=
  match c with
  | Cell.int n => some (n : ℚ)
  | Cell.num q => some q
  | _ => none

instance {ε α : Type} [DecidableEq ε] [DecidableEq α] : DecidableEq (Except ε α) :=
  fun a b =>
    match a, b with
    | Except.ok x, Except.ok y =>
        if h : x = y then isTrue (by rw [h]) else isFalse (by simp [h])
    | Except.error x, Except.error y =>
        if h : x = y then isTrue (by rw [h]) else isFalse (by simp [h])
    | Except.ok _, Except.error _ => isFalse (by simp)
    | Except.error _, Except.ok _ => isFalse (by simp)

/-!
## Tables

A row is an association list from column name to cell; a data frame is
a column-name list plus its rows. `getCell` models `row[col]` (missing
column reads as the missing marker — every cleaner access is either
guarded by `col in df.columns` or by an explicit presence check that
models the pandas `KeyError`).
-/

def Row : Type := List (String × Cell)

instance : DecidableEq Row := by
  unfold Row
  exact inferInstance

structure DF where
  cols : List String
  rows : List Row
deriving DecidableEq

def getCell (r : Row) (c : String) : Cell :=
  match List.lookup c r with
  | some v => v
  | none => Cell.na

/-- The raw key cell of a row. -/
def keyOf (r : Row) : Cell :=
  getCell r "listing_id"

/-- Canonical form under pandas value equality: `True == 1 == 1.0`,
`NaN` compares equal to itself for `drop_duplicates` purposes, text
only equals identical text. -/
def canonCell : Cell → Cell
  | Cell.int n => Cell.num (n : ℚ)
  | Cell.bool b => Cell.num (if b then 1 else 0)
  | c => c

/-- The value equality `drop_duplicates` uses between key cells. -/
def cellEqPandas (a b : Cell) : Bool :=
  canonCell a = canonCell b

/-- Models `df.drop_duplicates(subset=["listing_id"])` (keep the first
occurrence of each raw key value); `seen` accumulates the raw key
cells already kept. -/
def dedupGo (seen : List Cell) : List Row → List Row
  | [] => []
  | r :: rs =>
      if seen.any (fun k => cellEqPandas k (keyOf r)) then dedupGo seen rs
      else r :: dedupGo (keyOf r :: seen) rs

def dedupByKey (rows : List Row) : List Row :=
  dedupGo [] rows

/-- Effectful map over a list, failing as soon as one element fails —
the aggregation of pandas column operations that can raise. -/
def mapME (f : α → Except Unit β) : List α → Except Unit (List β)
  | [] => Except.ok []
  | a :: l =>
      match f a with
      | Except.error e => Except.error e
      | Except.ok b =>
          match mapME f l with
          | Except.error e => Except.error e
          | Except.ok l2 => Except.ok (b :: l2)

/-- Apply a per-column cell transformation to every entry of a row.
Column-wise pandas assignments (`df[col] = f(df[col])`, guarded by
`if col in df.columns`) act independently per row and per column, so a
cleaner is the row-wise application of its per-column function; a
column absent from the frame simply has no entries, matching the
guard. -/
def rowApply (g : String → Cell → Except Unit Cell) (r : Row) : Except Unit Row :=
  mapME (fun p =>
    match g p.1 p.2 with
    | Except.error e => Except.error e
    | Except.ok v => Except.ok (p.1, v)) r

/-- Shared shape of all six cleaners: `drop_duplicates` on the raw
key, the column transformations, then `dropna(subset=keyReq)`. -/
def cleanRows (keyReq : List String) (g : String → Cell → Except Unit Cell)
    (rows : List Row) : Except Unit (List Row) :=
  match mapME (rowApply g) (dedupByKey rows) with
  | Except.error e => Except.error e
  | Except.ok r2 =>
      Except.ok (r2.filter (fun r => keyReq.all (fun c => !(getCell r c).isNA)))

/-- `pd.to_numeric(·, errors="coerce").astype("Int64")`, the key
coercion every cleaner applies to `listing_id`. -/
def keyCoerce (c : Cell) : Except Unit Cell :=
  astypeInt64 (toNumeric c)

/-- Pricing `price` rule: numeric coercion, then negatives become
missing (`df.loc[df["price"].notna() & (df["price"] < 0)] = pd.NA`);
no `astype("Int64")`, so floats are kept. -/
def priceClean (c : Cell) : Cell :=
  let v := toNumeric c
  match cellNumVal v with
  | some q => if q < 0 then Cell.na else v
  | none => v

/-- Pricing `year` rule: numeric coercion, `astype("Int64")`, then
out-of-range values (below 1950 or above the current year) become
missing. -/
def yearClean (currentYear : Int) (c : Cell) : Except Unit Cell :=
  match astypeInt64 (toNumeric c) with
  | Except.error e => Except.error e
  | Except.ok (Cell.int n) =>
      if n < 1950 ∨ currentYear < n then Except.ok Cell.na else Except.ok (Cell.int n)
  | Except.ok v => Except.ok v

/-- Pricing `mileage` rule: numeric coercion, `astype("Int64")`, then
negatives become missing. -/
def mileageClean (c : Cell) : Except Unit Cell :=
  match astypeInt64 (toNumeric c) with
  | Except.error e => Except.error e
  | Except.ok (Cell.int n) =>
      if n < 0 then Except.ok Cell.na else Except.ok (Cell.int n)
  | Except.ok v => Except.ok v

/-- Specs `engine_size`/`wheel_size` rule: numeric coercion, then
non-positive values become missing; floats are kept. -/
def posNumClean (c : Cell) : Cell :=
  let v := toNumeric c
  match cellNumVal v with
  | some q => if q ≤ 0 then Cell.na else v
  | none => v

/-- Shared cleaner body: column-presence guard (pandas `KeyError` on a
missing required column), then the dedup/transform/dropna pipeline,
keeping the frame's column list. -/
def cleanTable (guard : Bool) (kr : List String) (g : String → Cell → Except Unit Cell)
    (df : DF) : Except Unit DF :=
  if guard then
    match cleanRows kr g df.rows with
    | Except.error e => Except.error e
    | Except.ok rows => Except.ok ⟨df.cols, rows⟩
  else Except.error ()

/-- Per-column rules of `clean_core`. -/
def coreCellFn : String → Cell → Except Unit Cell
  | "listing_id", c => keyCoerce c
  | "url", c => Except.ok (stripStr c)
  | _, c => Except.ok c

/-- `clean_core`: dedup by raw key, coerce the key, strip `url`, then
drop rows whose key or url is missing. Accessing `df["url"]` and
`dropna(subset=["listing_id","url"])` require both columns
(`KeyError` otherwise, modelled by `Except.error`). -/
def clean_core (df : DF) : Except Unit DF :=
  cleanTable (df.cols.contains "listing_id" && df.cols.contains "url") ["listing_id", "url"] coreCellFn df

/-- Per-column rules of `clean_pricing`. -/
def pricingCellFn (currentYear : Int) : String → Cell → Except Unit Cell
  | "listing_id", c => keyCoerce c
  | "price", c => Except.ok (priceClean c)
  | "year", c => yearClean currentYear c
  | "mileage", c => mileageClean c
  | _, c => Except.ok c

/-- `clean_pricing`, parameterized by `pd.Timestamp.today().year`. -/
def clean_pricing (currentYear : Int) (df : DF) : Except Unit DF :=
  cleanTable (df.cols.contains "listing_id") ["listing_id"] (pricingCellFn currentYear) df

/-- Per-column rules of `clean_vehicle`. -/
def vehicleCellFn : String → Cell → Except Unit Cell
  | "listing_id", c => keyCoerce c
  | "make", c => Except.ok (stripStr c)
  | "model", c => Except.ok (stripStr c)
  | _, c => Except.ok c

def clean_vehicle (df : DF) : Except Unit DF :=
  cleanTable (df.cols.contains "listing_id") ["listing_id"] vehicleCellFn df

/-- Per-column rules of `clean_specs`. -/
def specsCellFn : String → Cell → Except Unit Cell
  | "listing_id", c => keyCoerce c
  | "engine_size", c => Except.ok (posNumClean c)
  | "wheel_size", c => Except.ok (posNumClean c)
  | "engine_type", c => Except.ok (stripStr c)
  | "transmission", c => Except.ok (stripStr c)
  | "drive_type", c => Except.ok (stripStr c)
  | "steering_wheel", c => Except.ok (stripStr c)
  | "comfort", c => Except.ok (stripStr c)
  | _, c => Except.ok c

def clean_specs (df : DF) : Except Unit DF :=
  cleanTable (df.cols.contains "listing_id") ["listing_id"] specsCellFn df

/-- Per-column rules of `clean_appearance`. -/
def appearanceCellFn : String → Cell → Except Unit Cell
  | "listing_id", c => keyCoerce c
  | "body_type", c => Except.ok (stripStr c)
  | "color", c => Except.ok (stripStr c)
  | "interior_material", c => Except.ok (stripStr c)
  | "sunroof", c => Except.ok (boolMap c)
  | _, c => Except.ok c

def clean_appearance (df : DF) : Except Unit DF :=
  cleanTable (df.cols.contains "listing_id") ["listing_id"] appearanceCellFn df

/-- Per-column rules of `clean_status`. -/
def statusCellFn : String → Cell → Except Unit Cell
  | "listing_id", c => keyCoerce c
  | "cleared_customs", c => Except.ok (boolMap c)
  | "condition", c => Except.ok (stripStr c)
  | _, c => Except.ok c

def clean_status (df : DF) : Except Unit DF :=
  cleanTable (df.cols.contains "listing_id") ["listing_id"] statusCellFn df

/-- Cell-level image of `to_py` on frame cells: `pd.isna(x)` yields
`None` (the missing marker), and unwrapping a numpy scalar to its
plain Python value is the identity at this level of abstraction. -/
def to_py_cell (c : Cell) : Cell :=
  if c.isNA then Cell.na else c

/-- `rows_as_tuples`: one parameter tuple per row, values in the order
of `cols`, each passed through the scalar normalizer; `df[cols]`
raises `KeyError` when a requested column is absent. -/
def rows_as_tuples (df : DF) (cols : List String) : Except Unit (List (List Cell)) :=
  if cols.all (fun c => df.cols.contains c) then
    Except.ok (df.rows.map (fun r => cols.map (fun c => to_py_cell (getCell r c))))
  else Except.error ()

/-!
## Batch loader

`insert_batches` submits one `execute_values` statement per slice
`rows[start : start + BATCH_SIZE]` for `start in
range(0, total, BATCH_SIZE)`, in order, and issues nothing for an
empty input. The model returns the list of submitted chunks.
-/

def BATCH_SIZE : Nat := 5000

def insert_batches (rows : List α) : List (List α) :=
  if rows.isEmpty then []
  else
    (List.range ((rows.length + BATCH_SIZE - 1) / BATCH_SIZE)).map
      (fun i => (rows.drop (i * BATCH_SIZE)).take BATCH_SIZE)

/-!
## Scalar normalizer

`to_py` operates on arbitrary Python scalars: `pd.isna` markers map to
`None`, numpy wrapper scalars exposing `item()` unwrap to their plain
primitive, a wrapper whose `item()` raises is returned unchanged (the
`try/except: pass`), and everything else passes through.
-/

inductive PyVal where
  | pynone : PyVal
  | nan : PyVal
  | int (n : Int) : PyVal
  | flt (q : ℚ) : PyVal
  | str (s : String) : PyVal
  | bool (b : Bool) : PyVal
  | npInt (n : Int) : PyVal
  | npFloat (q : ℚ) : PyVal
  | npBool (b : Bool) : PyVal
  | npNan : PyVal
  | itemRaises (tag : Nat) : PyVal
deriving DecidableEq

/-- `pd.isna` on a scalar: `None`, float NaN and the numpy NaN scalar
are the missing markers. -/
def pyIsNA : PyVal → Bool
  | PyVal.pynone => true
  | PyVal.nan => true
  | PyVal.npNan => true
  | _ => false

/-- Does the value expose an `item()` method (numpy scalars do, plain
Python scalars do not)? -/
def pyHasItem : PyVal → Bool
  | PyVal.npInt _ => true
  | PyVal.npFloat _ => true
  | PyVal.npBool _ => true
  | PyVal.npNan => true
  | PyVal.itemRaises _ => true
  | _ => false

/-- `item()`, when it succeeds. -/
def pyItem : PyVal → Option PyVal
  | PyVal.npInt n => some (PyVal.int n)
  | PyVal.npFloat q => some (PyVal.flt q)
  | PyVal.npBool b => some (PyVal.bool b)
  | _ => none

def to_py (x : PyVal) : PyVal :=
  if pyIsNA x then PyVal.pynone
  else if pyHasItem x then
    match pyItem x with
    | some v => v
    | none => x
  else x

/-!
## Orchestrator (Transacting stage of `main`)

The stage is modelled against an oracle saying which external calls
succeed: `connect` (`get_conn`), each of the six `insert_batches`
calls, `commit`, `rollback` and `close`. `mainTransacting` mirrors the
`try/except/finally` of `main`: the body connects, disables
autocommit, runs the six loads in their fixed order and commits; on
any exception the handler logs the original error
(`logging.exception`), rolls back only when `conn is not None` — a
rollback failure is swallowed silently by the inner bare
`except Exception: pass`, without any logging — and re-raises the
original exception; the `finally` closes the connection when one
exists (swallowing a close failure). It returns the event trace and
the error surfaced to the caller, if any.
-/

inductive Err where
  | connectErr : Err
  | loadErr (table : String) : Err
  | commitErr : Err
  | rollbackErr : Err
  | closeErr : Err
deriving DecidableEq

inductive Ev where
  | connectEv : Ev
  | autocommitOffEv : Ev
  | insertEv (table : String) : Ev
  | commitEv : Ev
  | logErrEv : Ev
  | rollbackEv : Ev
  | logRollbackDoneEv : Ev
  | rollbackFailEv : Ev
  | closeEv : Ev
  | closeFailEv : Ev
deriving DecidableEq

structure Oracle where
  connectOk : Bool
  insertOk : String → Bool
  commitOk : Bool
  rollbackOk : Bool
  closeOk : Bool

/-- The fixed parent-then-children load order of `main`. -/
def tablesOrder : List String :=
  ["core", "pricing", "vehicle", "specs", "appearance", "status"]

/-- The six sequential `insert_batches` calls: events of the
successful calls, and the error of the first failing one. -/
def insertSeq (o : Oracle) : List String → List Ev × Option Err
  | [] => ([], none)
  | t :: ts =>
      if o.insertOk t then
        let r := insertSeq o ts
        (Ev.insertEv t :: r.1, r.2)
      else ([], some (Err.loadErr t))

/-- The best-effort rollback of the except-handler: a successful
rollback is followed by the "Rolled back transaction." log entry; a
rollback failure is swallowed silently by the inner bare
`except Exception: pass` — the code has no logging call for it, so the
model has no log event for it either, only the marker that the
attempt happened and failed. -/
def rollbackEvs (o : Oracle) : List Ev :=
  if o.rollbackOk then [Ev.rollbackEv, Ev.logRollbackDoneEv] else [Ev.rollbackFailEv]

/-- The `finally` close: a failure is swallowed. -/
def closeEvs (o : Oracle) : List Ev :=
  if o.closeOk then [Ev.closeEv] else [Ev.closeFailEv]

def mainTransacting (o : Oracle) : List Ev × Option Err :=
  if o.connectOk then
    match (insertSeq o tablesOrder).2 with
    | some e =>
        (Ev.connectEv :: Ev.autocommitOffEv :: (insertSeq o tablesOrder).1 ++
           [Ev.logErrEv] ++ rollbackEvs o ++ closeEvs o,
         some e)
    | none =>
        if o.commitOk then
          (Ev.connectEv :: Ev.autocommitOffEv :: (insertSeq o tablesOrder).1 ++
             [Ev.commitEv] ++ closeEvs o,
           none)
        else
          (Ev.connectEv :: Ev.autocommitOffEv :: (insertSeq o tablesOrder).1 ++
             [Ev.logErrEv] ++ rollbackEvs o ++ closeEvs o,
           some Err.commitErr)
  else ([Ev.logErrEv], some Err.connectErr)

/-- Did the handler attempt a rollback (successful or swallowed)? -/
def attemptedRollback (tr : List Ev) : Bool :=
  tr.contains Ev.rollbackEv || tr.contains Ev.rollbackFailEv

/-!
## List machinery
-/

theorem mapME_forall2 {α β : Type} {f : α → Except Unit β} :
    ∀ {l : List α} {l2 : List β}, mapME f l = Except.ok l2 →
      List.Forall₂ (fun a b => f a = Except.ok b) l l2 := by
  intro l
  induction l with
  | nil =>
      intro l2 h
      simp only [mapME] at h
      cases h
      exact List.Forall₂.nil
  | cons a t ih =>
      intro l2 h
      simp only [mapME] at h
      split at h
      · cases h
      · split at h
        · cases h
        · cases h
          rename_i d1 b hb d2 t2 ht2
          exact List.Forall₂.cons hb (ih ht2)

theorem forall2_mem_left {α β : Type} {P : α → β → Prop} :
    ∀ {l : List α} {l2 : List β}, List.Forall₂ P l l2 → ∀ a ∈ l, ∃ b ∈ l2, P a b := by
  intro l l2 h
  induction h with
  | nil => intro a ha; cases ha
  | cons hab _ ih =>
      intro a ha
      rcases List.mem_cons.mp ha with rfl | ha2
      · exact ⟨_, List.mem_cons_self _ _, hab⟩
      · rcases ih a ha2 with ⟨b, hb, hPb⟩
        exact ⟨b, List.mem_cons_of_mem _ hb, hPb⟩

theorem forall2_mem_right {α β : Type} {P : α → β → Prop} :
    ∀ {l : List α} {l2 : List β}, List.Forall₂ P l l2 → ∀ b ∈ l2, ∃ a ∈ l, P a b := by
  intro l l2 h
  induction h with
  | nil => intro b hb; cases hb
  | cons hab _ ih =>
      intro b hb
      rcases List.mem_cons.mp hb with rfl | hb2
      · exact ⟨_, List.mem_cons_self _ _, hab⟩
      · rcases ih b hb2 with ⟨a, ha, hPa⟩
        exact ⟨a, List.mem_cons_of_mem _ ha, hPa⟩

theorem mapME_filter_sub {α β : Type} {f : α → Except Unit β} (p : β → Bool) :
    ∀ {l : List α} {l2 : List β}, mapME f l = Except.ok l2 →
      ∃ sub, sub.Sublist l ∧ mapME f sub = Except.ok (l2.filter p) := by
  intro l
  induction l with
  | nil =>
      intro l2 h
      simp only [mapME] at h
      cases h
      exact ⟨[], List.Sublist.refl _, rfl⟩
  | cons a t ih =>
      intro l2 h
      simp only [mapME] at h
      split at h
      · cases h
      · split at h
        · cases h
        · cases h
          rename_i d1 b hb d2 t2 ht2
          rcases ih ht2 with ⟨sub, hsub, hmap⟩
          by_cases hp : p b = true
          · refine ⟨a :: sub, List.Sublist.cons₂ a hsub, ?_⟩
            simp [mapME, hb, hmap, List.filter_cons, hp]
          · refine ⟨sub, List.Sublist.cons a hsub, ?_⟩
            simp only [List.filter_cons]
            rw [if_neg (by simp [hp])]
            exact hmap

theorem dedupGo_sublist : ∀ (rows : List Row) (seen : List Cell),
    (dedupGo seen rows).Sublist rows := by
  intro rows
  induction rows with
  | nil => intro seen; simp [dedupGo]
  | cons r rs ih =>
      intro seen
      simp only [dedupGo]
      split
      · exact List.Sublist.cons r (ih seen)
      · exact List.Sublist.cons₂ r (ih (keyOf r :: seen))

theorem dedupGo_pairwise : ∀ (rows : List Row) (seen : List Cell),
    (dedupGo seen rows).Pairwise
      (fun a b => cellEqPandas (keyOf a) (keyOf b) = false) ∧
    (∀ r ∈ dedupGo seen rows, ∀ k ∈ seen, cellEqPandas k (keyOf r) = false) := by
  intro rows
  induction rows with
  | nil => intro seen; exact ⟨List.Pairwise.nil, by intro r hr; cases hr⟩
  | cons r rs ih =>
      intro seen
      simp only [dedupGo]
      split
      · exact ih seen
      · rename_i hnot
        have hseen : ∀ k ∈ seen, cellEqPandas k (keyOf r) = false := by
          intro k hk
          rcases Bool.eq_false_or_eq_true (cellEqPandas k (keyOf r)) with ht | hf
          · exact absurd (List.any_eq_true.mpr ⟨k, hk, ht⟩) hnot
          · exact hf
        have ihx := ih (keyOf r :: seen)
        constructor
        · refine List.Pairwise.cons ?_ ihx.1
          intro b hb
          exact ihx.2 b hb (keyOf r) (List.mem_cons_self _ _)
        · intro x hx k hk
          rcases List.mem_cons.mp hx with rfl | hx2
          · exact hseen k hk
          · exact ihx.2 x hx2 k (List.mem_cons_of_mem _ hk)

/-- Pandas cell equality is symmetric. -/
theorem cellEqPandas_symm (a b : Cell) : cellEqPandas a b = cellEqPandas b a := by
  simp only [cellEqPandas]
  by_cases h : canonCell a = canonCell b
  · rw [h]
  · rw [decide_eq_false h, decide_eq_false (fun hx => h hx.symm)]

/-!
## Row-transformation lemmas
-/

/-- The element relation established by a successful `rowApply`. -/
theorem rowApply_forall2 {g : String → Cell → Except Unit Cell} {r r2 : Row}
    (h : rowApply g r = Except.ok r2) :
    List.Forall₂ (fun p p2 => p.1 = p2.1 ∧ g p.1 p.2 = Except.ok p2.2) r r2 := by
  have h2 := mapME_forall2 h
  refine List.Forall₂.imp ?_ h2
  intro p p2 hp
  cases hgp : g p.1 p.2 with
  | error e => rw [hgp] at hp; cases hp
  | ok v =>
      rw [hgp] at hp
      cases hp
      exact ⟨rfl, rfl⟩

/-- A successful `rowApply` transforms each column's value in place:
looking up a column on the output finds the transformed input value. -/
theorem forall2_lookup {g : String → Cell → Except Unit Cell} :
    ∀ {r r2 : List (String × Cell)},
      List.Forall₂ (fun p p2 => p.1 = p2.1 ∧ g p.1 p.2 = Except.ok p2.2) r r2 →
      ∀ c : String,
        (match List.lookup c r with
         | some v => ∃ v2, g c v = Except.ok v2 ∧ List.lookup c r2 = some v2
         | none => List.lookup c r2 = none) := by
  intro r
  induction r with
  | nil =>
      intro r2 h c
      cases h
      simp [List.lookup]
  | cons p t ih =>
      intro r2 h c
      cases h
      rename_i p2 t2 hp hrest
      rcases p with ⟨k, v⟩
      rcases p2 with ⟨k2, v2⟩
      obtain ⟨hfst, hgk⟩ := hp
      dsimp only at hfst hgk
      subst hfst
      by_cases hc : c = k
      · subst hc
        simp only [List.lookup, beq_self_eq_true]
        exact ⟨v2, hgk, rfl⟩
      · have hb : (c == k) = false := beq_eq_false_iff_ne.mpr hc
        simp only [List.lookup, hb]
        exact ih hrest c

/-- Every cleaner coerces the key cell with `keyCoerce`; a row that
survives the transformation has the coerced key. A row with no key
entry keeps the missing key (`keyCoerce` fixes the missing marker). -/
theorem rowApply_key {g : String → Cell → Except Unit Cell}
    (hg : ∀ c, g "listing_id" c = keyCoerce c) {r r2 : Row}
    (h : rowApply g r = Except.ok r2) :
    keyCoerce (keyOf r) = Except.ok (keyOf r2) := by
  have hl := forall2_lookup (rowApply_forall2 h) "listing_id"
  unfold keyOf getCell
  cases hk : List.lookup "listing_id" r with
  | some v =>
      rw [hk] at hl
      rcases hl with ⟨v2, hgv, hl2⟩
      rw [hl2, ← hg v, hgv]
  | none =>
      rw [hk] at hl
      rw [hl]
      rfl

/-!
## Cleaner-pipeline lemmas
-/

theorem cleanRows_cases {kr : List String} {g : String → Cell → Except Unit Cell}
    {rows out : List Row} (h : cleanRows kr g rows = Except.ok out) :
    ∃ r2, mapME (rowApply g) (dedupByKey rows) = Except.ok r2 ∧
      out = r2.filter (fun r => kr.all (fun c => !(getCell r c).isNA)) := by
  unfold cleanRows at h
  split at h
  · cases h
  · cases h
    rename_i r2 h2
    exact ⟨r2, h2, rfl⟩

/-- Order preservation: the cleaned rows are the transformed image of
an order-preserving selection of the raw rows. -/
theorem cleanRows_sublist {kr : List String} {g : String → Cell → Except Unit Cell}
    {rows out : List Row} (h : cleanRows kr g rows = Except.ok out) :
    ∃ sub, sub.Sublist rows ∧ mapME (rowApply g) sub = Except.ok out := by
  rcases cleanRows_cases h with ⟨r2, h2, rfl⟩
  rcases mapME_filter_sub (fun r => kr.all (fun c => !(getCell r c).isNA)) h2 with
    ⟨sub, hsub, hmap⟩
  exact ⟨sub, hsub.trans (dedupGo_sublist rows []), hmap⟩

/-- Membership preservation: a deduplicated row whose transformation
succeeds and satisfies the key filter appears in the output. -/
theorem cleanRows_mem {kr : List String} {g : String → Cell → Except Unit Cell}
    {rows out : List Row} {r r2 : Row}
    (h : cleanRows kr g rows = Except.ok out)
    (hr : r ∈ dedupByKey rows)
    (hr2 : rowApply g r = Except.ok r2)
    (hkeep : kr.all (fun c => !(getCell r2 c).isNA) = true) :
    r2 ∈ out := by
  rcases cleanRows_cases h with ⟨l2, h2, rfl⟩
  rcases forall2_mem_left (mapME_forall2 h2) r hr with ⟨b, hb, hfb⟩
  rw [hr2] at hfb
  cases hfb
  exact List.mem_filter.mpr ⟨hb, hkeep⟩

/-- Every output row passes the key filter. -/
theorem cleanRows_out_prop {kr : List String} {g : String → Cell → Except Unit Cell}
    {rows out : List Row} {r2 : Row}
    (h : cleanRows kr g rows = Except.ok out) (hr : r2 ∈ out) :
    kr.all (fun c => !(getCell r2 c).isNA) = true := by
  rcases cleanRows_cases h with ⟨l2, h2, rfl⟩
  exact (List.mem_filter.mp hr).2

theorem forall2_pairwise_keys {g : String → Cell → Except Unit Cell}
    (hg : ∀ c, g "listing_id" c = keyCoerce c) :
    ∀ {l l2 : List Row}, mapME (rowApply g) l = Except.ok l2 →
      (∀ a ∈ l, ∀ b ∈ l, keyCoerce (keyOf a) = keyCoerce (keyOf b) →
        cellEqPandas (keyOf a) (keyOf b) = true) →
      l.Pairwise (fun a b => cellEqPandas (keyOf a) (keyOf b) = false) →
      l2.Pairwise (fun a b => keyOf a ≠ keyOf b) := by
  intro l l2 hmap
  have hfa := mapME_forall2 hmap
  clear hmap
  induction hfa with
  | nil => intro _ _; exact List.Pairwise.nil
  | cons hab hrest ih =>
      rename_i a b t t2
      intro HL hpw
      rcases List.pairwise_cons.mp hpw with ⟨hhead, htail⟩
      refine List.Pairwise.cons ?_ (ih (fun x hx y hy => HL x (List.mem_cons_of_mem _ hx) y
        (List.mem_cons_of_mem _ hy)) htail)
      intro y hy hky
      rcases forall2_mem_right hrest y hy with ⟨x, hx, hxy⟩
      have hka := rowApply_key hg hab
      have hkx := rowApply_key hg hxy
      rw [hky] at hka
      have hcoerce : keyCoerce (keyOf a) = keyCoerce (keyOf x) := by rw [hka, hkx]
      have := HL a (List.mem_cons_self _ _) x (List.mem_cons_of_mem _ hx) hcoerce
      rw [hhead x hx] at this
      cases this

/-- Key uniqueness of a cleaned table, given that the key coercion is
injective (up to pandas value equality) on the raw keys. -/
theorem cleanRows_unique_keys {kr : List String} {g : String → Cell → Except Unit Cell}
    {rows out : List Row}
    (hg : ∀ c, g "listing_id" c = keyCoerce c)
    (h : cleanRows kr g rows = Except.ok out)
    (H : ∀ a ∈ rows, ∀ b ∈ rows, keyCoerce (keyOf a) = keyCoerce (keyOf b) →
      cellEqPandas (keyOf a) (keyOf b) = true) :
    out.Pairwise (fun a b => keyOf a ≠ keyOf b) := by
  rcases cleanRows_cases h with ⟨l2, h2, rfl⟩
  have hsub := dedupGo_sublist rows []
  have hpw := (dedupGo_pairwise rows []).1
  have H2 : ∀ a ∈ dedupByKey rows, ∀ b ∈ dedupByKey rows,
      keyCoerce (keyOf a) = keyCoerce (keyOf b) →
      cellEqPandas (keyOf a) (keyOf b) = true :=
    fun a ha b hb => H a (hsub.subset ha) b (hsub.subset hb)
  have hp := forall2_pairwise_keys hg h2 H2 hpw
  exact List.Pairwise.sublist (List.filter_sublist _) hp

/-!
## Chunking lemmas
-/

/-- Recursive characterization of slice-chunking. -/
def chunksRec (B : Nat) (rows : List α) : List (List α) :=
  if h : rows.isEmpty ∨ B = 0 then []
  else rows.take B :: chunksRec B (rows.drop B)
termination_by rows.length
decreasing_by
  push_neg at h
  have h1 : rows ≠ [] := by
    intro he
    exact absurd (by simp [he]) h.1
  have h2 : 0 < rows.length := List.length_pos.mpr h1
  have h3 : 0 < B := Nat.pos_of_ne_zero h.2
  simp only [List.length_drop]
  omega

theorem ceil_div_step (B n : Nat) (hB : 0 < B) (hn : 0 < n) :
    (n + B - 1) / B = (n - B + B - 1) / B + 1 := by
  rcases Nat.le_total n B with h | h
  · have h1 : n - B = 0 := Nat.sub_eq_zero_of_le h
    rw [h1]
    have h2 : (n + B - 1) / B = 1 := by
      apply Nat.div_eq_of_lt_le <;> omega
    have h3 : (0 + B - 1) / B = 0 := Nat.div_eq_of_lt (by omega)
    omega
  · have he : n + B - 1 = (n - B + B - 1) + B := by omega
    rw [he, Nat.add_div_right _ hB]

theorem chunksRec_join (B : Nat) (hB : 0 < B) :
    ∀ n (rows : List α), rows.length ≤ n → (chunksRec B rows).flatten = rows := by
  intro n
  induction n with
  | zero =>
      intro rows h
      have : rows = [] := List.eq_nil_of_length_eq_zero (Nat.le_zero.mp h)
      subst this
      rw [chunksRec]
      simp
  | succ n ih =>
      intro rows h
      rw [chunksRec]
      split
      · rename_i hcond
        rcases hcond with he | hb0
        · simp only [List.isEmpty_iff] at he
          simp [he]
        · omega
      · rename_i hcond
        push_neg at hcond
        simp only [List.flatten_cons]
        rw [ih (rows.drop B) (by simp only [List.length_drop]; omega)]
        exact List.take_append_drop B rows

theorem chunksRec_length (B : Nat) (hB : 0 < B) :
    ∀ n (rows : List α), rows.length ≤ n →
      (chunksRec B rows).length = (rows.length + B - 1) / B := by
  intro n
  induction n with
  | zero =>
      intro rows h
      have : rows = [] := List.eq_nil_of_length_eq_zero (Nat.le_zero.mp h)
      subst this
      rw [chunksRec]
      simp only [List.isEmpty_nil, true_or, dite_true, List.length_nil, List.length]
      exact (Nat.div_eq_of_lt (by omega)).symm
  | succ n ih =>
      intro rows h
      rw [chunksRec]
      split
      · rename_i hcond
        rcases hcond with he | hb0
        · simp only [List.isEmpty_iff] at he
          subst he
          simp only [List.length_nil, List.length]
          exact (Nat.div_eq_of_lt (by omega)).symm
        · omega
      · rename_i hcond
        push_neg at hcond
        have h1 : rows ≠ [] := by
          intro he
          exact absurd (by simp [he]) hcond.1
        have h2 : 0 < rows.length := List.length_pos.mpr h1
        simp only [List.length_cons]
        rw [ih (rows.drop B) (by simp only [List.length_drop]; omega)]
        rw [ceil_div_step B rows.length hB h2]
        simp [List.length_drop]

theorem chunksRec_size (B : Nat) :
    ∀ n (rows : List α), rows.length ≤ n →
      ∀ c ∈ chunksRec B rows, c.length ≤ B := by
  intro n
  induction n with
  | zero =>
      intro rows h c hc
      have : rows = [] := List.eq_nil_of_length_eq_zero (Nat.le_zero.mp h)
      subst this
      rw [chunksRec] at hc
      simp at hc
  | succ n ih =>
      intro rows h c hc
      rw [chunksRec] at hc
      split at hc
      · cases hc
      · rename_i hcond
        push_neg at hcond
        have h1 : rows ≠ [] := by
          intro he
          exact absurd (by simp [he]) hcond.1
        have h2 : 0 < rows.length := List.length_pos.mpr h1
        have h3 : 0 < B := Nat.pos_of_ne_zero hcond.2
        rcases List.mem_cons.mp hc with rfl | hc2
        · exact List.length_take_le B rows
        · exact ih (rows.drop B) (by simp only [List.length_drop]; omega) c hc2

theorem range_chunks_eq (B : Nat) (hB : 0 < B) :
    ∀ n (rows : List α), rows.length ≤ n →
      (List.range ((rows.length + B - 1) / B)).map
        (fun i => (rows.drop (i * B)).take B) = chunksRec B rows := by
  intro n
  induction n with
  | zero =>
      intro rows h
      have : rows = [] := List.eq_nil_of_length_eq_zero (Nat.le_zero.mp h)
      subst this
      rw [chunksRec]
      simp [Nat.div_eq_of_lt (by omega : B - 1 < B)]
  | succ n ih =>
      intro rows h
      by_cases hrows : rows = []
      · subst hrows
        rw [chunksRec]
        simp [Nat.div_eq_of_lt (by omega : B - 1 < B)]
      · have h2 : 0 < rows.length := List.length_pos.mpr hrows
        rw [ceil_div_step B rows.length hB h2]
        rw [List.range_succ_eq_map, List.map_cons, List.map_map]
        rw [chunksRec]
        rw [dif_neg (by simp only [List.isEmpty_iff, hrows, false_or]; omega)]
        congr 1
        · simp
        · have hlen : (rows.drop B).length = rows.length - B := List.length_drop B rows
          have := ih (rows.drop B) (by simp only [List.length_drop]; omega)
          rw [hlen] at this
          rw [← this]
          apply List.map_congr_left
          intro i hi
          simp only [Function.comp]
          rw [List.drop_drop]
          congr 2
          simp only [Nat.succ_eq_add_one]
          ring

/-!
## Orchestrator lemmas
-/

theorem insertSeq_err {o : Oracle} :
    ∀ {ts : List String} {e : Err}, (insertSeq o ts).2 = some e →
      ∃ t ∈ ts, e = Err.loadErr t ∧ o.insertOk t = false := by
  intro ts
  induction ts with
  | nil => intro e h; simp [insertSeq] at h
  | cons t ts ih =>
      intro e h
      simp only [insertSeq] at h
      split at h
      · rcases ih h with ⟨u, hu, he, ho⟩
        exact ⟨u, List.mem_cons_of_mem _ hu, he, ho⟩
      · rename_i hfail
        cases h
        exact ⟨t, List.mem_cons_self _ _, rfl, Bool.not_eq_true _ ▸ Bool.of_not_eq_true hfail⟩

theorem insertSeq_ok {o : Oracle} :
    ∀ {ts : List String}, (insertSeq o ts).2 = none →
      (insertSeq o ts).1 = ts.map Ev.insertEv := by
  intro ts
  induction ts with
  | nil => intro h; simp [insertSeq]
  | cons t ts ih =>
      intro h
      simp only [insertSeq] at h ⊢
      split at h
      · rename_i hok
        simp only [hok, if_true, List.map_cons]
        rw [ih h]
      · cases h

/-- The insert stage only emits load events. -/
theorem insertSeq_events {o : Oracle} :
    ∀ {ts : List String} {v : Ev}, v ∈ (insertSeq o ts).1 → ∃ t, v = Ev.insertEv t := by
  intro ts
  induction ts with
  | nil => intro v hv; cases hv
  | cons t ts ih =>
      intro v hv
      simp only [insertSeq] at hv
      split at hv
      · rcases List.mem_cons.mp hv with rfl | hv2
        · exact ⟨t, rfl⟩
        · exact ih hv2
      · cases hv

theorem log_done_not_in_insertSeq {o : Oracle} {ts : List String} :
    Ev.logRollbackDoneEv ∉ (insertSeq o ts).1 := by
  intro h
  rcases insertSeq_events h with ⟨t, ht⟩
  cases ht

/-!
## Shape lemmas
-/

theorem cleanTable_ok {guard : Bool} {kr : List String}
    {g : String → Cell → Except Unit Cell} {df out : DF}
    (h : cleanTable guard kr g df = Except.ok out) :
    cleanRows kr g df.rows = Except.ok out.rows ∧ out.cols = df.cols := by
  unfold cleanTable at h
  split at h
  · split at h
    · cases h
    · cases h
      rename_i d rows hcr
      exact ⟨hcr, rfl⟩
  · cases h

theorem parseNumeric_shape (s : String) :
    parseNumeric s = none ∨ (∃ n, parseNumeric s = some (Cell.int n)) ∨
      ∃ q, parseNumeric s = some (Cell.num q) := by
  unfold parseNumeric
  dsimp only
  split
  · split
    · left; rfl
    · right; left; exact ⟨_, rfl⟩
  · split
    · left; rfl
    · split
      · right; right; exact ⟨_, rfl⟩
      · split
        · split
          · right; right; exact ⟨_, rfl⟩
          · left; rfl
        · left; rfl
  · split
    · split
      · right; right; exact ⟨_, rfl⟩
      · left; rfl
    · left; rfl

theorem toNumeric_shape (c : Cell) :
    toNumeric c = Cell.na ∨ (∃ n, toNumeric c = Cell.int n) ∨
      ∃ q, toNumeric c = Cell.num q := by
  cases c with
  | na => left; rfl
  | int n => right; left; exact ⟨n, rfl⟩
  | num q => right; right; exact ⟨q, rfl⟩
  | bool b => right; left; exact ⟨_, rfl⟩
  | str s =>
      rcases parseNumeric_shape s with h | ⟨n, h⟩ | ⟨q, h⟩
      · left; simp [toNumeric, h]
      · right; left; exact ⟨n, by simp [toNumeric, h]⟩
      · right; right; exact ⟨q, by simp [toNumeric, h]⟩

theorem astypeInt64_ok_shape {x v : Cell} (h : astypeInt64 x = Except.ok v) :
    v = Cell.na ∨ ∃ n, v = Cell.int n := by
  cases x with
  | na =>
      simp only [astypeInt64, Except.ok.injEq] at h
      left; exact h.symm
  | int n =>
      simp only [astypeInt64] at h
      split at h
      · cases h
      · simp only [Except.ok.injEq] at h
        right; exact ⟨n, h.symm⟩
  | num q =>
      simp only [astypeInt64] at h
      split at h
      · simp only [Except.ok.injEq] at h
        right; exact ⟨q.num, h.symm⟩
      · cases h
  | bool b =>
      simp only [astypeInt64, Except.ok.injEq] at h
      right; exact ⟨_, h.symm⟩
  | str s => simp [astypeInt64] at h

/-!
## Claim theorems
-/

/-- C9: the scalar normalizer `to_py` is total (a function), idempotent,
returns `None` exactly on the absent/NaN markers, and unwraps
`item()`-exposing wrapper scalars to their plain primitives. -/
theorem to_py_normalizer :
    (∀ x, to_py (to_py x) = to_py x) ∧
    (∀ x, to_py x = PyVal.pynone ↔ pyIsNA x = true) ∧
    (∀ n, to_py (PyVal.npInt n) = PyVal.int n) ∧
    (∀ q, to_py (PyVal.npFloat q) = PyVal.flt q) ∧
    (∀ b, to_py (PyVal.npBool b) = PyVal.bool b) := by
  refine ⟨?_, ?_, fun n => rfl, fun q => rfl, fun b => rfl⟩
  · intro x
    cases x <;> rfl
  · intro x
    cases x <;> simp [to_py, pyIsNA, pyHasItem, pyItem]

/-- C7: for a non-empty input, the batch loader issues
`ceil(n / 5000)` chunks, each of at most 5000 rows, whose
concatenation in submission order is exactly the input. -/
theorem insert_batches_chunking {α : Type} (rows : List α) (hne : rows ≠ []) :
    (insert_batches rows).length = (rows.length + BATCH_SIZE - 1) / BATCH_SIZE ∧
    (∀ c ∈ insert_batches rows, c.length ≤ BATCH_SIZE) ∧
    (insert_batches rows).flatten = rows := by
  have hB : 0 < BATCH_SIZE := by decide
  have hie : rows.isEmpty = false := by simp [List.isEmpty_iff, hne]
  have heq : insert_batches rows = chunksRec BATCH_SIZE rows := by
    unfold insert_batches
    simp only [hie, Bool.false_eq_true, if_false]
    exact range_chunks_eq BATCH_SIZE hB rows.length rows le_rfl
  rw [heq]
  exact ⟨chunksRec_length BATCH_SIZE hB rows.length rows le_rfl,
         chunksRec_size BATCH_SIZE rows.length rows le_rfl,
         chunksRec_join BATCH_SIZE hB rows.length rows le_rfl⟩

theorem insert_batches_chunking_witness :
    ([1, 2, 3] : List Nat) ≠ [] ∧
    ((insert_batches ([1, 2, 3] : List Nat)).length =
      (([1, 2, 3] : List Nat).length + BATCH_SIZE - 1) / BATCH_SIZE ∧
     (∀ c ∈ insert_batches ([1, 2, 3] : List Nat), c.length ≤ BATCH_SIZE) ∧
     (insert_batches ([1, 2, 3] : List Nat)).flatten = [1, 2, 3]) :=
  ⟨by decide, insert_batches_chunking [1, 2, 3] (by decide)⟩

/-- The key coercion is injective, up to pandas raw-value equality, on
the raw keys of the frame — the hypothesis under which cleaned keys
are unique. -/
def keyInjective (df : DF) : Prop :=
  ∀ a ∈ df.rows, ∀ b ∈ df.rows,
    keyCoerce (keyOf a) = keyCoerce (keyOf b) → cellEqPandas (keyOf a) (keyOf b) = true

/-- C2 counterexample: two raw Pricing rows with distinct raw keys
`"1"` and `"01"` both survive `drop_duplicates` (performed on the raw
key before coercion) and both coerce to key `1`: the cleaned table has
two rows with the same `listing_id`. -/
theorem cleaned_keys_not_unique :
    (clean_pricing 2026 ⟨["listing_id"],
      [[("listing_id", Cell.str "1")], [("listing_id", Cell.str "01")]]⟩).map
      (fun d => d.rows.map keyOf) = Except.ok [Cell.int 1, Cell.int 1] := by decide

/-- C2 amended: duplicates are dropped by raw key value, keeping the
first occurrence; provided the key coercion sends pandas-distinct
surviving raw keys to distinct values (`keyInjective`, which holds in
particular for keys already given as canonical integers), no two
cleaned rows of any of the six tables share a `listing_id`. -/
theorem cleaned_keys_unique_amended (y : Int) (df out : DF) :
    (clean_core df = Except.ok out → keyInjective df →
      out.rows.Pairwise (fun a b => keyOf a ≠ keyOf b)) ∧
    (clean_pricing y df = Except.ok out → keyInjective df →
      out.rows.Pairwise (fun a b => keyOf a ≠ keyOf b)) ∧
    (clean_vehicle df = Except.ok out → keyInjective df →
      out.rows.Pairwise (fun a b => keyOf a ≠ keyOf b)) ∧
    (clean_specs df = Except.ok out → keyInjective df →
      out.rows.Pairwise (fun a b => keyOf a ≠ keyOf b)) ∧
    (clean_appearance df = Except.ok out → keyInjective df →
      out.rows.Pairwise (fun a b => keyOf a ≠ keyOf b)) ∧
    (clean_status df = Except.ok out → keyInjective df →
      out.rows.Pairwise (fun a b => keyOf a ≠ keyOf b)) := by
  refine ⟨?_, ?_, ?_, ?_, ?_, ?_⟩ <;>
    exact fun h hinj => cleanRows_unique_keys (fun c => rfl) (cleanTable_ok h).1 hinj

theorem cleaned_keys_unique_amended_witness :
    clean_vehicle ⟨["listing_id"],
      [[("listing_id", Cell.int 1)], [("listing_id", Cell.int 2)]]⟩ =
      Except.ok ⟨["listing_id"],
        [[("listing_id", Cell.int 1)], [("listing_id", Cell.int 2)]]⟩ ∧
    keyInjective ⟨["listing_id"], [[("listing_id", Cell.int 1)], [("listing_id", Cell.int 2)]]⟩ ∧
    ([[("listing_id", Cell.int 1)], [("listing_id", Cell.int 2)]] : List Row).Pairwise
      (fun a b => keyOf a ≠ keyOf b) :=
  ⟨by decide, by unfold keyInjective; decide,
   (cleaned_keys_unique_amended 2026
      ⟨["listing_id"], [[("listing_id", Cell.int 1)], [("listing_id", Cell.int 2)]]⟩
      ⟨["listing_id"], [[("listing_id", Cell.int 1)], [("listing_id", Cell.int 2)]]⟩).2.2.1
     (by decide) (by unfold keyInjective; decide)⟩

/-- C1 counterexample: when `get_conn` itself raises, `conn` is still
`None`, so the except-handler only logs the error and skips the
rollback entirely: the connect error is re-raised with no rollback
attempted. Moreover, when a rollback attempt itself fails, the inner
bare `except Exception: pass` swallows it silently: the trace of such
a run records the attempt marker and no log entry about it (the only
log events the code emits are the original-error log and the
successful-rollback log). Both refute the claim as stated. -/
theorem rollback_not_attempted_on_connect_failure :
    (mainTransacting ⟨false, fun _ => true, true, true, true⟩).2 = some Err.connectErr ∧
    attemptedRollback (mainTransacting ⟨false, fun _ => true, true, true, true⟩).1 =
      false ∧
    mainTransacting ⟨true, fun t => !(t == "specs"), true, false, true⟩ =
      ([Ev.connectEv, Ev.autocommitOffEv, Ev.insertEv "core", Ev.insertEv "pricing",
        Ev.insertEv "vehicle", Ev.logErrEv, Ev.rollbackFailEv, Ev.closeEv],
       some (Err.loadErr "specs")) := by
  refine ⟨rfl, rfl, by decide⟩

/-- C1 amended: any Transacting error is re-raised unchanged (a connect
error, the first failing load's error in table order, or the commit
error — never a rollback- or close-related one); the handler logs the
original error and attempts a rollback whenever the connection was
opened; a rollback failure is swallowed silently — the failed attempt
leaves its marker in the trace but no log entry (the handler is a bare
`except Exception: pass`; only a successful rollback is logged); on a
connect failure no connection exists and no rollback is attempted. -/
theorem transacting_error_propagation (o : Oracle) (e : Err)
    (h : (mainTransacting o).2 = some e) :
    e ≠ Err.rollbackErr ∧ e ≠ Err.closeErr ∧
    (e = Err.connectErr ∨ e = Err.commitErr ∨ ∃ t ∈ tablesOrder, e = Err.loadErr t) ∧
    (o.connectOk = true → attemptedRollback (mainTransacting o).1 = true) ∧
    (o.connectOk = false → e = Err.connectErr ∧
      attemptedRollback (mainTransacting o).1 = false) ∧
    (o.connectOk = true → o.rollbackOk = false →
      (mainTransacting o).1.contains Ev.rollbackFailEv = true ∧
      Ev.logRollbackDoneEv ∉ (mainTransacting o).1) := by
  cases hc : o.connectOk with
  | false =>
      have htr : mainTransacting o = ([Ev.logErrEv], some Err.connectErr) := by
        simp only [mainTransacting, hc, Bool.false_eq_true, if_false]
      rw [htr] at h ⊢
      simp only [Option.some.injEq] at h
      subst h
      exact ⟨by simp, by simp, Or.inl rfl, by simp [hc], fun _ => ⟨rfl, rfl⟩,
        by simp [hc]⟩
  | true =>
      cases hins : (insertSeq o tablesOrder).2 with
      | some e0 =>
          have htr : mainTransacting o =
              (Ev.connectEv :: Ev.autocommitOffEv :: (insertSeq o tablesOrder).1 ++
                 [Ev.logErrEv] ++ rollbackEvs o ++ closeEvs o, some e0) := by
            simp only [mainTransacting, hc, hins, if_true]
          rw [htr] at h ⊢
          simp only [Option.some.injEq] at h
          subst h
          rcases insertSeq_err hins with ⟨t, ht, he, hfail⟩
          subst he
          refine ⟨by simp, by simp, Or.inr (Or.inr ⟨t, ht, rfl⟩), ?_, by simp, ?_⟩
          · intro _
            cases hrb : o.rollbackOk <;>
              simp [attemptedRollback, rollbackEvs, hrb]
          · intro _ hrb
            constructor
            · simp [rollbackEvs, hrb]
            · cases hcl : o.closeOk <;>
                simp [List.mem_cons, List.mem_append, rollbackEvs, hrb, closeEvs,
                  hcl, log_done_not_in_insertSeq]
      | none =>
          cases hcm : o.commitOk with
          | true =>
              have hsnd : (mainTransacting o).2 = none := by
                simp only [mainTransacting, hc, hins, hcm, if_true]
              rw [hsnd] at h
              cases h
          | false =>
              have htr : mainTransacting o =
                  (Ev.connectEv :: Ev.autocommitOffEv :: (insertSeq o tablesOrder).1 ++
                     [Ev.logErrEv] ++ rollbackEvs o ++ closeEvs o,
                   some Err.commitErr) := by
                simp only [mainTransacting, hc, hins, hcm, Bool.false_eq_true,
                  if_true, if_false]
              rw [htr] at h ⊢
              simp only [Option.some.injEq] at h
              subst h
              refine ⟨by simp, by simp, Or.inr (Or.inl rfl), ?_, by simp, ?_⟩
              · intro _
                cases hrb : o.rollbackOk <;>
                  simp [attemptedRollback, rollbackEvs, hrb]
              · intro _ hrb
                constructor
                · simp [rollbackEvs, hrb]
                · cases hcl : o.closeOk <;>
                    simp [List.mem_cons, List.mem_append, rollbackEvs, hrb, closeEvs,
                      hcl, log_done_not_in_insertSeq]

theorem transacting_error_propagation_witness :
    (mainTransacting ⟨true, fun t => !(t == "specs"), true, false, true⟩).2 =
      some (Err.loadErr "specs") ∧
    (Err.loadErr "specs" ≠ Err.rollbackErr ∧ Err.loadErr "specs" ≠ Err.closeErr ∧
     (Err.loadErr "specs" = Err.connectErr ∨ Err.loadErr "specs" = Err.commitErr ∨
       ∃ t ∈ tablesOrder, Err.loadErr "specs" = Err.loadErr t) ∧
     ((⟨true, fun t => !(t == "specs"), true, false, true⟩ : Oracle).connectOk = true →
       attemptedRollback
         (mainTransacting ⟨true, fun t => !(t == "specs"), true, false, true⟩).1 = true) ∧
     ((⟨true, fun t => !(t == "specs"), true, false, true⟩ : Oracle).connectOk = false →
       Err.loadErr "specs" = Err.connectErr ∧
       attemptedRollback
         (mainTransacting ⟨true, fun t => !(t == "specs"), true, false, true⟩).1 =
           false) ∧
     ((⟨true, fun t => !(t == "specs"), true, false, true⟩ : Oracle).connectOk = true →
       (⟨true, fun t => !(t == "specs"), true, false, true⟩ : Oracle).rollbackOk = false →
       (mainTransacting ⟨true, fun t => !(t == "specs"), true, false, true⟩).1.contains
         Ev.rollbackFailEv = true ∧
       Ev.logRollbackDoneEv ∉
         (mainTransacting ⟨true, fun t => !(t == "specs"), true, false, true⟩).1)) :=
  ⟨by decide,
   transacting_error_propagation ⟨true, fun t => !(t == "specs"), true, false, true⟩
     (Err.loadErr "specs") (by decide)⟩

/-- C8: in every successful run the six loads execute strictly
sequentially in the fixed order Core, Pricing, Vehicle, Specs,
Appearance, Status, inside one connection and one transaction with
autocommit disabled (exactly one connect, one autocommit-off and one
commit event) — in particular the Core load completes before any child
table's load begins. -/
theorem transacting_success_order (o : Oracle)
    (h : (mainTransacting o).2 = none) :
    (mainTransacting o).1 =
      [Ev.connectEv, Ev.autocommitOffEv, Ev.insertEv "core", Ev.insertEv "pricing",
       Ev.insertEv "vehicle", Ev.insertEv "specs", Ev.insertEv "appearance",
       Ev.insertEv "status", Ev.commitEv] ++ closeEvs o ∧
    (mainTransacting o).1.count Ev.connectEv = 1 ∧
    (mainTransacting o).1.count Ev.autocommitOffEv = 1 ∧
    (mainTransacting o).1.count Ev.commitEv = 1 := by
  cases hc : o.connectOk with
  | false =>
      have hsnd : (mainTransacting o).2 = some Err.connectErr := by
        simp only [mainTransacting, hc, Bool.false_eq_true, if_false]
      rw [hsnd] at h
      cases h
  | true =>
      cases hins : (insertSeq o tablesOrder).2 with
      | some e0 =>
          have hsnd : (mainTransacting o).2 = some e0 := by
            simp only [mainTransacting, hc, hins, if_true]
          rw [hsnd] at h
          cases h
      | none =>
          cases hcm : o.commitOk with
          | false =>
              have hsnd : (mainTransacting o).2 = some Err.commitErr := by
                simp only [mainTransacting, hc, hins, hcm, Bool.false_eq_true,
                  if_true, if_false]
              rw [hsnd] at h
              cases h
          | true =>
              have hins1 := insertSeq_ok hins
              have htr : mainTransacting o =
                  (Ev.connectEv :: Ev.autocommitOffEv :: (insertSeq o tablesOrder).1 ++
                     [Ev.commitEv] ++ closeEvs o, none) := by
                simp only [mainTransacting, hc, hins, hcm, if_true]
              rw [htr, hins1]
              refine ⟨by simp [tablesOrder], ?_, ?_, ?_⟩ <;>
                cases hcl : o.closeOk <;>
                  simp [closeEvs, hcl, tablesOrder]

theorem transacting_success_order_witness :
    (mainTransacting ⟨true, fun _ => true, true, true, true⟩).2 = none ∧
    ((mainTransacting ⟨true, fun _ => true, true, true, true⟩).1 =
      [Ev.connectEv, Ev.autocommitOffEv, Ev.insertEv "core", Ev.insertEv "pricing",
       Ev.insertEv "vehicle", Ev.insertEv "specs", Ev.insertEv "appearance",
       Ev.insertEv "status", Ev.commitEv] ++
        closeEvs ⟨true, fun _ => true, true, true, true⟩ ∧
     (mainTransacting ⟨true, fun _ => true, true, true, true⟩).1.count Ev.connectEv = 1 ∧
     (mainTransacting ⟨true, fun _ => true, true, true, true⟩).1.count
       Ev.autocommitOffEv = 1 ∧
     (mainTransacting ⟨true, fun _ => true, true, true, true⟩).1.count Ev.commitEv = 1) :=
  ⟨by decide, transacting_success_order ⟨true, fun _ => true, true, true, true⟩ (by decide)⟩

/-- C5: the Pricing domain rules: a negative price cleans to absent, a
year below 1950 or above the current year cleans to absent, a negative
mileage cleans to absent, and an out-of-domain value is never clamped
or replaced by a default — the cleaned field is either absent or the
exact coerced input value, in domain. The cited literals
`price = -5`, `year = 1899`, `year = 2999` (current year below 2999)
and `mileage = -1` all clean to absent, also through the full
`clean_pricing` pipeline. -/
theorem pricing_domain_rules (y : Int) :
    (∀ c q, cellNumVal (toNumeric c) = some q → q < 0 → priceClean c = Cell.na) ∧
    (∀ c, priceClean c = Cell.na ∨
      ∃ q, cellNumVal (priceClean c) = some q ∧ 0 ≤ q ∧ priceClean c = toNumeric c) ∧
    (∀ c n, astypeInt64 (toNumeric c) = Except.ok (Cell.int n) → (n < 1950 ∨ y < n) →
      yearClean y c = Except.ok Cell.na) ∧
    (∀ c v, yearClean y c = Except.ok v → v = Cell.na ∨
      ∃ n, v = Cell.int n ∧ astypeInt64 (toNumeric c) = Except.ok (Cell.int n) ∧
        1950 ≤ n ∧ n ≤ y) ∧
    (∀ c n, astypeInt64 (toNumeric c) = Except.ok (Cell.int n) → n < 0 →
      mileageClean c = Except.ok Cell.na) ∧
    (∀ c v, mileageClean c = Except.ok v → v = Cell.na ∨
      ∃ n, v = Cell.int n ∧ astypeInt64 (toNumeric c) = Except.ok (Cell.int n) ∧
        0 ≤ n) ∧
    priceClean (Cell.int (-5)) = Cell.na ∧
    yearClean y (Cell.int 1899) = Except.ok Cell.na ∧
    (y < 2999 → yearClean y (Cell.int 2999) = Except.ok Cell.na) ∧
    mileageClean (Cell.int (-1)) = Except.ok Cell.na ∧
    clean_pricing 2026 ⟨["listing_id", "price", "year", "mileage"],
      [[("listing_id", Cell.int 1), ("price", Cell.int (-5)), ("year", Cell.int 1899),
        ("mileage", Cell.int (-1))],
       [("listing_id", Cell.int 2), ("price", Cell.num (mkRat 3 2)),
        ("year", Cell.int 2999), ("mileage", Cell.int 7)]]⟩ =
      Except.ok ⟨["listing_id", "price", "year", "mileage"],
        [[("listing_id", Cell.int 1), ("price", Cell.na), ("year", Cell.na),
          ("mileage", Cell.na)],
         [("listing_id", Cell.int 2), ("price", Cell.num (mkRat 3 2)),
          ("year", Cell.na), ("mileage", Cell.int 7)]]⟩ := by
  have hprice : ∀ c, priceClean c =
      (match cellNumVal (toNumeric c) with
       | some q => if q < 0 then Cell.na else toNumeric c
       | none => toNumeric c) := fun c => rfl
  refine ⟨?_, ?_, ?_, ?_, ?_, ?_, by decide, ?_, ?_, by decide, by decide⟩
  · intro c q hq hlt
    rw [hprice c, hq]
    exact if_pos hlt
  · intro c
    rcases hv : cellNumVal (toNumeric c) with _ | q
    · rcases toNumeric_shape c with hna | ⟨n, hn⟩ | ⟨q2, hq2⟩
      · left
        rw [hprice c, hv]
        exact hna
      · rw [hn] at hv
        simp [cellNumVal] at hv
      · rw [hq2] at hv
        simp [cellNumVal] at hv
    · by_cases hneg : q < 0
      · left
        rw [hprice c, hv]
        exact if_pos hneg
      · right
        have hp : priceClean c = toNumeric c := by
          rw [hprice c, hv]
          exact if_neg hneg
        refine ⟨q, ?_, le_of_not_lt hneg, hp⟩
        rw [hp, hv]
  · intro c n hc hrange
    unfold yearClean
    rw [hc]
    exact if_pos hrange
  · intro c v h
    unfold yearClean at h
    cases ha : astypeInt64 (toNumeric c) with
    | error e => rw [ha] at h; cases h
    | ok w =>
        rcases astypeInt64_ok_shape ha with rfl | ⟨n, rfl⟩
        · rw [ha] at h
          cases h
          left; rfl
        · rw [ha] at h
          have h2 : (if n < 1950 ∨ y < n then Except.ok Cell.na
              else Except.ok (Cell.int n)) = (Except.ok v : Except Unit Cell) := h
          by_cases hr : n < 1950 ∨ y < n
          · rw [if_pos hr] at h2
            cases h2
            left; rfl
          · rw [if_neg hr] at h2
            cases h2
            push_neg at hr
            right
            exact ⟨n, rfl, rfl, by omega, by omega⟩
  · intro c n hc hneg
    unfold mileageClean
    rw [hc]
    exact if_pos hneg
  · intro c v h
    unfold mileageClean at h
    cases ha : astypeInt64 (toNumeric c) with
    | error e => rw [ha] at h; cases h
    | ok w =>
        rcases astypeInt64_ok_shape ha with rfl | ⟨n, rfl⟩
        · rw [ha] at h
          cases h
          left; rfl
        · rw [ha] at h
          have h2 : (if n < 0 then Except.ok Cell.na
              else Except.ok (Cell.int n)) = (Except.ok v : Except Unit Cell) := h
          by_cases hr : n < 0
          · rw [if_pos hr] at h2
            cases h2
            left; rfl
          · rw [if_neg hr] at h2
            cases h2
            right
            exact ⟨n, rfl, rfl, by omega⟩
  · unfold yearClean
    have ha : astypeInt64 (toNumeric (Cell.int 1899)) = Except.ok (Cell.int 1899) := rfl
    rw [ha]
    exact if_pos (Or.inl (by decide))
  · intro hy
    unfold yearClean
    have ha : astypeInt64 (toNumeric (Cell.int 2999)) = Except.ok (Cell.int 2999) := rfl
    rw [ha]
    exact if_pos (Or.inr hy)

theorem pricing_domain_rules_witness :
    cellNumVal (toNumeric (Cell.str "-7.5")) = some (mkRat (-15) 2) ∧
    (mkRat (-15) 2 : ℚ) < 0 ∧
    priceClean (Cell.str "-7.5") = Cell.na ∧
    astypeInt64 (toNumeric (Cell.str "1899")) = Except.ok (Cell.int 1899) ∧
    yearClean 2026 (Cell.str "1899") = Except.ok Cell.na ∧
    astypeInt64 (toNumeric (Cell.str "-1")) = Except.ok (Cell.int (-1)) ∧
    mileageClean (Cell.str "-1") = Except.ok Cell.na ∧
    ((2026 : Int) < 2999 ∧ yearClean 2026 (Cell.int 2999) = Except.ok Cell.na) :=
  ⟨by decide, by decide,
   (pricing_domain_rules 2026).1 (Cell.str "-7.5") (mkRat (-15) 2) (by decide) (by decide),
   by decide,
   (pricing_domain_rules 2026).2.2.1 (Cell.str "1899") 1899 (by decide)
     (Or.inl (by decide)),
   by decide,
   (pricing_domain_rules 2026).2.2.2.2.1 (Cell.str "-1") (-1) (by decide) (by decide),
   by decide, (pricing_domain_rules 2026).2.2.2.2.2.2.2.2.1 (by decide)⟩

/-- C6: boolean-like fields (`sunroof` via `clean_appearance`,
`cleared_customs` via `clean_status`) are lower-cased, stripped and
mapped by the fixed vocabulary true/1/yes → true, false/0/no → false,
anything else → absent; in particular "Yes" → true, "0" → false,
"TRUE" → true and "maybe" → absent, also through the two cleaners. -/
theorem bool_vocabulary (s : String) :
    (strStrip (strLower s) = "true" ∨ strStrip (strLower s) = "1" ∨
       strStrip (strLower s) = "yes" → boolMap (Cell.str s) = Cell.bool true) ∧
    (¬(strStrip (strLower s) = "true" ∨ strStrip (strLower s) = "1" ∨
        strStrip (strLower s) = "yes") →
      strStrip (strLower s) = "false" ∨ strStrip (strLower s) = "0" ∨
        strStrip (strLower s) = "no" → boolMap (Cell.str s) = Cell.bool false) ∧
    (¬(strStrip (strLower s) = "true" ∨ strStrip (strLower s) = "1" ∨
        strStrip (strLower s) = "yes") →
     ¬(strStrip (strLower s) = "false" ∨ strStrip (strLower s) = "0" ∨
        strStrip (strLower s) = "no") →
     boolMap (Cell.str s) = Cell.na) ∧
    boolMap (Cell.str "Yes") = Cell.bool true ∧
    boolMap (Cell.str "0") = Cell.bool false ∧
    boolMap (Cell.str "TRUE") = Cell.bool true ∧
    boolMap (Cell.str "maybe") = Cell.na ∧
    (clean_appearance ⟨["listing_id", "sunroof"],
      [[("listing_id", Cell.int 1), ("sunroof", Cell.str "Yes")],
       [("listing_id", Cell.int 2), ("sunroof", Cell.str "0")],
       [("listing_id", Cell.int 3), ("sunroof", Cell.str "TRUE")],
       [("listing_id", Cell.int 4), ("sunroof", Cell.str "maybe")]]⟩).map
      (fun d => d.rows.map (fun r => getCell r "sunroof")) =
      Except.ok [Cell.bool true, Cell.bool false, Cell.bool true, Cell.na] ∧
    (clean_status ⟨["listing_id", "cleared_customs"],
      [[("listing_id", Cell.int 1), ("cleared_customs", Cell.str "Yes")],
       [("listing_id", Cell.int 2), ("cleared_customs", Cell.str "0")],
       [("listing_id", Cell.int 3), ("cleared_customs", Cell.str "TRUE")],
       [("listing_id", Cell.int 4), ("cleared_customs", Cell.str "maybe")]]⟩).map
      (fun d => d.rows.map (fun r => getCell r "cleared_customs")) =
      Except.ok [Cell.bool true, Cell.bool false, Cell.bool true, Cell.na] := by
  have hb : boolMap (Cell.str s) =
      (if strStrip (strLower s) = "true" ∨ strStrip (strLower s) = "1" ∨
          strStrip (strLower s) = "yes" then Cell.bool true
       else if strStrip (strLower s) = "false" ∨ strStrip (strLower s) = "0" ∨
          strStrip (strLower s) = "no" then Cell.bool false
       else Cell.na) := rfl
  refine ⟨?_, ?_, ?_, by decide, by decide, by decide, by decide, by decide, by decide⟩
  · intro h1
    rw [hb, if_pos h1]
  · intro h1 h2
    rw [hb, if_neg h1, if_pos h2]
  · intro h1 h2
    rw [hb, if_neg h1, if_neg h2]

theorem bool_vocabulary_witness :
    (strStrip (strLower "Yes") = "true" ∨ strStrip (strLower "Yes") = "1" ∨
      strStrip (strLower "Yes") = "yes") ∧
    boolMap (Cell.str "Yes") = Cell.bool true ∧
    (¬(strStrip (strLower "maybe") = "true" ∨ strStrip (strLower "maybe") = "1" ∨
        strStrip (strLower "maybe") = "yes")) ∧
    (¬(strStrip (strLower "maybe") = "false" ∨ strStrip (strLower "maybe") = "0" ∨
        strStrip (strLower "maybe") = "no")) ∧
    boolMap (Cell.str "maybe") = Cell.na :=
  ⟨by decide, (bool_vocabulary "Yes").1 (by decide), by decide, by decide,
   (bool_vocabulary "maybe").2.2.1 (by decide) (by decide)⟩

/-- C4 counterexample: a Core row with a whitespace-only url is NOT
excluded: stripping yields the empty string, which is not the missing
marker, so `dropna(subset=["listing_id","url"])` keeps the row even
though the claim says an empty url row is dropped. -/
theorem core_keeps_empty_url :
    clean_core ⟨["listing_id", "url"],
      [[("listing_id", Cell.str "1"), ("url", Cell.str " ")]]⟩ =
    Except.ok ⟨["listing_id", "url"],
      [[("listing_id", Cell.int 1), ("url", Cell.str "")]]⟩ := by decide

/-- C4 amended: `clean_core` excludes exactly the rows whose coerced
key or url is absent (pandas NA): every cleaned row has a present key
and url, and every deduplicated raw row whose transformation yields a
present key and a present url survives. An empty — or whitespace-only,
stripped to empty — url string is present, not absent, so such a row is
kept with url `""`. -/
theorem core_required_fields_amended (df out : DF)
    (h : clean_core df = Except.ok out) :
    (∀ r ∈ out.rows, (getCell r "listing_id").isNA = false ∧
      (getCell r "url").isNA = false) ∧
    (∀ r r2, r ∈ dedupByKey df.rows → rowApply coreCellFn r = Except.ok r2 →
      (getCell r2 "listing_id").isNA = false → (getCell r2 "url").isNA = false →
      r2 ∈ out.rows) := by
  have hcr := (cleanTable_ok h).1
  constructor
  · intro r hr
    have hp := cleanRows_out_prop hcr hr
    simp only [List.all_cons, List.all_nil, Bool.and_true, Bool.and_eq_true,
      Bool.not_eq_true'] at hp
    exact hp
  · intro r r2 hr hr2 hk hu
    exact cleanRows_mem hcr hr hr2
      (by simp only [List.all_cons, List.all_nil, Bool.and_true, hk, hu,
            Bool.not_false, Bool.and_self])

theorem core_required_fields_amended_witness :
    clean_core ⟨["listing_id", "url"],
      [[("listing_id", Cell.str "1"), ("url", Cell.str " ")]]⟩ =
      Except.ok ⟨["listing_id", "url"],
        [[("listing_id", Cell.int 1), ("url", Cell.str "")]]⟩ ∧
    ((getCell [("listing_id", Cell.int 1), ("url", Cell.str "")] "listing_id").isNA =
       false ∧
     (getCell [("listing_id", Cell.int 1), ("url", Cell.str "")] "url").isNA = false) ∧
    [("listing_id", Cell.int 1), ("url", Cell.str "")] ∈
      (⟨["listing_id", "url"],
        [[("listing_id", Cell.int 1), ("url", Cell.str "")]]⟩ : DF).rows :=
  ⟨by decide,
   (core_required_fields_amended
      ⟨["listing_id", "url"], [[("listing_id", Cell.str "1"), ("url", Cell.str " ")]]⟩
      ⟨["listing_id", "url"], [[("listing_id", Cell.int 1), ("url", Cell.str "")]]⟩
      (by decide)).1
     [("listing_id", Cell.int 1), ("url", Cell.str "")] (by decide),
   (core_required_fields_amended
      ⟨["listing_id", "url"], [[("listing_id", Cell.str "1"), ("url", Cell.str " ")]]⟩
      ⟨["listing_id", "url"], [[("listing_id", Cell.int 1), ("url", Cell.str "")]]⟩
      (by decide)).2
     [("listing_id", Cell.str "1"), ("url", Cell.str " ")]
     [("listing_id", Cell.int 1), ("url", Cell.str "")]
     (by decide) (by decide) (by decide) (by decide)⟩

/-- C10: every cleaner preserves the relative source order of the rows
it keeps — the cleaned rows are the row-transformed image of an
order-preserving selection (a sublist) of the raw rows — and the row
materializer emits exactly one tuple per row, in row order, with the
values in column order. -/
theorem order_preserved (y : Int) (df : DF) :
    (∀ out, clean_core df = Except.ok out →
      ∃ sub, sub.Sublist df.rows ∧
        mapME (rowApply coreCellFn) sub = Except.ok out.rows) ∧
    (∀ out, clean_pricing y df = Except.ok out →
      ∃ sub, sub.Sublist df.rows ∧
        mapME (rowApply (pricingCellFn y)) sub = Except.ok out.rows) ∧
    (∀ out, clean_vehicle df = Except.ok out →
      ∃ sub, sub.Sublist df.rows ∧
        mapME (rowApply vehicleCellFn) sub = Except.ok out.rows) ∧
    (∀ out, clean_specs df = Except.ok out →
      ∃ sub, sub.Sublist df.rows ∧
        mapME (rowApply specsCellFn) sub = Except.ok out.rows) ∧
    (∀ out, clean_appearance df = Except.ok out →
      ∃ sub, sub.Sublist df.rows ∧
        mapME (rowApply appearanceCellFn) sub = Except.ok out.rows) ∧
    (∀ out, clean_status df = Except.ok out →
      ∃ sub, sub.Sublist df.rows ∧
        mapME (rowApply statusCellFn) sub = Except.ok out.rows) ∧
    (∀ cols ts, rows_as_tuples df cols = Except.ok ts →
      ts.length = df.rows.length ∧
      ∀ (i : Nat) (h1 : i < ts.length) (h2 : i < df.rows.length),
        ts.get ⟨i, h1⟩ =
          cols.map (fun c => to_py_cell (getCell (df.rows.get ⟨i, h2⟩) c))) := by
  refine ⟨fun out h => cleanRows_sublist (cleanTable_ok h).1,
          fun out h => cleanRows_sublist (cleanTable_ok h).1,
          fun out h => cleanRows_sublist (cleanTable_ok h).1,
          fun out h => cleanRows_sublist (cleanTable_ok h).1,
          fun out h => cleanRows_sublist (cleanTable_ok h).1,
          fun out h => cleanRows_sublist (cleanTable_ok h).1, ?_⟩
  intro cols ts h
  unfold rows_as_tuples at h
  split at h
  · cases h
    constructor
    · simp
    · intro i h1 h2
      simp [List.get_eq_getElem, List.getElem_map]
  · cases h

theorem order_preserved_witness :
    (∃ sub, sub.Sublist
        ([[("listing_id", Cell.int 1), ("url", Cell.str "u")]] : List Row) ∧
      mapME (rowApply coreCellFn) sub =
        Except.ok [[("listing_id", Cell.int 1), ("url", Cell.str "u")]]) ∧
    (∃ sub, sub.Sublist
        ([[("listing_id", Cell.int 1), ("url", Cell.str "u")]] : List Row) ∧
      mapME (rowApply (pricingCellFn 2026)) sub =
        Except.ok [[("listing_id", Cell.int 1), ("url", Cell.str "u")]]) ∧
    (∃ sub, sub.Sublist
        ([[("listing_id", Cell.int 1), ("url", Cell.str "u")]] : List Row) ∧
      mapME (rowApply statusCellFn) sub =
        Except.ok [[("listing_id", Cell.int 1), ("url", Cell.str "u")]]) ∧
    (([[Cell.str "u"]] : List (List Cell)).length =
      ([[("listing_id", Cell.int 1), ("url", Cell.str "u")]] : List Row).length ∧
     ∀ (i : Nat) (h1 : i < ([[Cell.str "u"]] : List (List Cell)).length)
       (h2 : i < ([[("listing_id", Cell.int 1), ("url", Cell.str "u")]] : List Row).length),
       ([[Cell.str "u"]] : List (List Cell)).get ⟨i, h1⟩ =
         ["url"].map (fun c => to_py_cell
           (getCell (([[("listing_id", Cell.int 1), ("url", Cell.str "u")]] :
             List Row).get ⟨i, h2⟩) c))) :=
  ⟨(order_preserved 2026
      ⟨["listing_id", "url"], [[("listing_id", Cell.int 1), ("url", Cell.str "u")]]⟩).1
      ⟨["listing_id", "url"], [[("listing_id", Cell.int 1), ("url", Cell.str "u")]]⟩
      (by decide),
   (order_preserved 2026
      ⟨["listing_id", "url"], [[("listing_id", Cell.int 1), ("url", Cell.str "u")]]⟩).2.1
      ⟨["listing_id", "url"], [[("listing_id", Cell.int 1), ("url", Cell.str "u")]]⟩
      (by decide),
   (order_preserved 2026
      ⟨["listing_id", "url"], [[("listing_id", Cell.int 1), ("url", Cell.str "u")]]⟩).2.2.2.2.2.1
      ⟨["listing_id", "url"], [[("listing_id", Cell.int 1), ("url", Cell.str "u")]]⟩
      (by decide),
   (order_preserved 2026
      ⟨["listing_id", "url"], [[("listing_id", Cell.int 1), ("url", Cell.str "u")]]⟩).2.2.2.2.2.2
      ["url"] [[Cell.str "u"]] (by decide)⟩

